import Mathlib

/-!
Shallow embedding of the tool lifecycle and isolated-execution core of the
mcp_server repository: the `ToolRegistry` (src/core/tool-registry.ts), the
`ToolLoader` (src/core/tool-loader.ts) and the `ToolExecutor`
(src/core/tool-executor.ts).

JavaScript `Map` objects are embedded as association lists with the `Map`
operations (`get` returns the entry for a key, `set` replaces in place or
appends, `delete` removes the entry, `has` tests presence); a `Map` never
holds two entries with the same key, which is carried as an explicit
well-formedness predicate where a proof needs it.  Promises are embedded by
their settlement: a handler call either resolves with a value, rejects with
a thrown value, or fails to settle before the executor's timer fires.
Thrown JavaScript values are either `Error` instances (carrying `.message`)
or arbitrary non-`Error` values (carried by their string coercion).
-/

/-- A JSON-like runtime value (the `unknown` of the TypeScript sources). -/
inductive JsValue where
  | null
  | boolean (b : Bool)
  | number (n : Int)
  | string (s : String)
  | list (xs : List JsValue)
  | object (fields : List (String × JsValue))

/-- A thrown JavaScript value: an `Error` instance with its `.message`, or a
non-`Error` value represented by its `String(...)` coercion. -/
inductive Thrown where
  | jsError (msg : String)
  | nonError (text : String)

/-- `error instanceof Error ? error.message : String(error)` (tool-executor.ts line 78). -/
def thrownText : Thrown → String
  | .jsError msg => msg
  | .nonError text => text

/-- The settlement behaviour of one handler invocation raced against the
executor's timer: resolve, reject, or fail to settle before the timer fires. -/
inductive Outcome where
  | resolve (v : JsValue)
  | reject (e : Thrown)
  | hang

/-! ### JavaScript `Map` as an association list -/

/-- `Map.get`: the value stored at `k`, if any. -/
def mapGet {α : Type} : List (String × α) → String → Option α
  | [], _ => none
  | p :: m, k => if p.1 = k then some p.2 else mapGet m k

/-- `Map.has`. -/
def mapHas {α : Type} : List (String × α) → String → Bool
  | [], _ => false
  | p :: m, k => if p.1 = k then true else mapHas m k

/-- `Map.set`: replace the entry for `k` in place, or append a new entry. -/
def mapSet {α : Type} : List (String × α) → String → α → List (String × α)
  | [], k, v => [(k, v)]
  | p :: m, k, v => if p.1 = k then (k, v) :: m else p :: mapSet m k v

/-- `Map.delete` (the returned `existed` flag is read off with `mapHas`). -/
def mapDelete {α : Type} : List (String × α) → String → List (String × α)
  | [], _ => []
  | p :: m, k => if p.1 = k then m else p :: mapDelete m k

/-- A `Map` never holds two entries with the same key. -/
def UniqKeys {α : Type} (m : List (String × α)) : Prop :=
  (m.map (fun p => p.1)).Nodup

/-! ### Data model (src/types/mcp.ts) -/

/-- `MCPMethodDefinition`.  `validate` is `z.object(inputSchema).safeParse`:
it either produces the parsed params (with default substitution) or a
validation diagnostic.  `handler` is the method handler, embedded by the
settlement of the promise it returns. -/
structure MCPMethodDefinition where
  name : String
  description : String
  validate : JsValue → Except String JsValue
  handler : JsValue → Outcome

/-- `MCPTool`.  `initializeFn` is the optional initialize capability
(`initialize?()`), embedded by the settlement of the promise it returns;
`healthCheck` likewise. -/
structure MCPTool where
  name : String
  description : String
  version : String
  methods : List MCPMethodDefinition
  initializeFn : Option (Except Thrown Unit)
  healthCheck : Option (Except Thrown Bool)

/-- `ToolExecutionResult`: `{ success: boolean; data?: unknown; error?: string }`. -/
structure ToolExecutionResult where
  success : Bool
  data : Option JsValue
  error : Option String

/-- `ToolStatus`. -/
structure ToolStatus where
  name : String
  version : String
  healthy : Bool
  methods : List String

/-! ### ToolRegistry (src/core/tool-registry.ts) -/

/-- The two private `Map`s of `ToolRegistry`. -/
structure RegistryState where
  tools : List (String × MCPTool)
  health : List (String × Bool)

/-- Reachable registry states: both `Map`s have unique keys, and every
descriptor is stored under its own `name` (the registry only ever calls
`this.tools.set(tool.name, tool)`). -/
def RegistryState.WF (st : RegistryState) : Prop :=
  UniqKeys st.tools ∧ UniqKeys st.health ∧ ∀ p ∈ st.tools, p.1 = p.2.name

/-- `register(tool)`: awaits `tool.initialize()` when present; on success
installs the descriptor and sets health `true`; on failure sets health
`false`, leaves the descriptor map untouched, and re-raises. -/
def ToolRegistry.register (st : RegistryState) (tool : MCPTool) :
    RegistryState × Except Thrown Unit :=
  match tool.initializeFn with
  | some (.error e) =>
      ({ st with health := mapSet st.health tool.name false }, .error e)
  | _ =>
      ({ tools := mapSet st.tools tool.name tool,
         health := mapSet st.health tool.name true }, .ok ())

/-- `unregister(toolName)`: deletes from both maps; returns whether a
descriptor entry existed. -/
def ToolRegistry.unregister (st : RegistryState) (toolName : String) :
    RegistryState × Bool :=
  ({ tools := mapDelete st.tools toolName,
     health := mapDelete st.health toolName },
   mapHas st.tools toolName)

/-- `getTool(toolName)`. -/
def ToolRegistry.getTool (st : RegistryState) (toolName : String) : Option MCPTool :=
  mapGet st.tools toolName

/-- `getAllTools()`. -/
def ToolRegistry.getAllTools (st : RegistryState) : List MCPTool :=
  st.tools.map (fun p => p.2)

/-- `getHealthyTools()`: tools whose health flag is `=== true`. -/
def ToolRegistry.getHealthyTools (st : RegistryState) : List MCPTool :=
  (ToolRegistry.getAllTools st).filter
    (fun tool => decide (mapGet st.health tool.name = some true))

/-- `getToolStatus(toolName)`. -/
def ToolRegistry.getToolStatus (st : RegistryState) (toolName : String) :
    Option ToolStatus :=
  match mapGet st.tools toolName with
  | none => none
  | some tool =>
      some { name := tool.name, version := tool.version,
             healthy := (mapGet st.health toolName).getD false,
             methods := tool.methods.map (fun m => m.name) }

/-- `getAllToolStatus()`. -/
def ToolRegistry.getAllToolStatus (st : RegistryState) : List ToolStatus :=
  (ToolRegistry.getAllTools st).map (fun tool =>
    { name := tool.name, version := tool.version,
      healthy := (mapGet st.health tool.name).getD false,
      methods := tool.methods.map (fun m => m.name) })

/-- `setHealthStatus(toolName, healthy)`: only updates the flag when a
descriptor for `toolName` is present. -/
def ToolRegistry.setHealthStatus (st : RegistryState) (toolName : String)
    (healthy : Bool) : RegistryState :=
  if mapHas st.tools toolName then
    { st with health := mapSet st.health toolName healthy }
  else st

/-- The loop body of `performHealthCheck()` over the descriptor entries. -/
def healthCheckGo (health : List (String × Bool)) :
    List (String × MCPTool) → List (String × Bool)
  | [] => health
  | (name, tool) :: rest =>
      healthCheckGo
        (match tool.healthCheck with
         | none => health
         | some (.ok b) => mapSet health name b
         | some (.error _) => mapSet health name false)
        rest

/-- `performHealthCheck()`. -/
def ToolRegistry.performHealthCheck (st : RegistryState) : RegistryState :=
  { st with health := healthCheckGo st.health st.tools }

/-! ### ToolExecutor (src/core/tool-executor.ts) -/

/-- JavaScript `String.prototype.includes` on the underlying characters. -/
def includes (s sub : String) : Bool :=
  decide (sub.data <:+: s.data)

/-- The rejection message of `createTimeout(ms)`. -/
def createTimeoutMsg (ms : Nat) : String :=
  "Execution timeout after " ++ toString ms ++ "ms"

/-- `isCriticalError(error)`: only `Error` instances are inspected; a message
containing `timeout` is never critical; otherwise a message containing
`ECONNREFUSED` or `ENOTFOUND` is critical; everything else is not. -/
def isCriticalError : Thrown → Bool
  | .jsError msg =>
      if includes msg "timeout" then false
      else if includes msg "ECONNREFUSED" || includes msg "ENOTFOUND" then true
      else false
  | .nonError _ => false

/-- One `execute` call, with its observable effects made explicit: the
returned `ToolExecutionResult`, the registry state afterwards, whether the
method handler was invoked, and the list of `setHealthStatus` calls the
executor issued. -/
structure ExecOut where
  result : ToolExecutionResult
  reg : RegistryState
  handlerInvoked : Bool
  setHealthCalls : List (String × Bool)

/-- `ToolExecutor.execute(toolName, methodName, params, timeout)` against
registry state `st`, with the constructor-supplied `defaultTimeout`.
Resolution, validation, the race of the handler against `createTimeout`,
and the catch-block classification, in source order. -/
def ToolExecutor.execute (st : RegistryState) (toolName methodName : String)
    (params : JsValue) (timeout : Option Nat) (defaultTimeout : Nat) : ExecOut :=
  match ToolRegistry.getTool st toolName with
  | none =>
      { result := { success := false, data := none,
                    error := some ("Tool not found: " ++ toolName) },
        reg := st, handlerInvoked := false, setHealthCalls := [] }
  | some tool =>
      match tool.methods.find? (fun m => m.name == methodName) with
      | none =>
          { result := { success := false, data := none,
                        error := some ("Method not found: " ++ toolName ++ "." ++ methodName) },
            reg := st, handlerInvoked := false, setHealthCalls := [] }
      | some method =>
          match method.validate params with
          | .error diag =>
              { result := { success := false, data := none,
                            error := some ("Invalid parameters: " ++ diag) },
                reg := st, handlerInvoked := false, setHealthCalls := [] }
          | .ok parsed =>
              let ms := timeout.getD defaultTimeout
              let raced : Except Thrown JsValue :=
                match method.handler parsed with
                | .resolve v => .ok v
                | .reject e => .error e
                | .hang => .error (.jsError (createTimeoutMsg ms))
              match raced with
              | .ok v =>
                  { result := { success := true, data := some v, error := none },
                    reg := st, handlerInvoked := true, setHealthCalls := [] }
              | .error e =>
                  if isCriticalError e then
                    { result := { success := false, data := none,
                                  error := some (thrownText e) },
                      reg := ToolRegistry.setHealthStatus st toolName false,
                      handlerInvoked := true,
                      setHealthCalls := [(toolName, false)] }
                  else
                    { result := { success := false, data := none,
                                  error := some (thrownText e) },
                      reg := st, handlerInvoked := true, setHealthCalls := [] }

/-! ### ToolLoader (src/core/tool-loader.ts) -/

/-- One candidate module enumerated by the glob: the directory name it was
found under, whether the module has a default export, whether that export
has a `getMethods` member, and the tool value itself. -/
structure ToolCandidate where
  dirName : String
  hasDefault : Bool
  hasGetMethods : Bool
  tool : MCPTool

/-- `loadTool(filePath)`: import, check the default export, check the
`MCPTool` interface (`!tool.name || !tool.getMethods`), then `register`;
every failure is re-thrown to the caller. -/
def ToolLoader.loadTool (st : RegistryState) (c : ToolCandidate) :
    RegistryState × Except Thrown Unit :=
  if c.hasDefault = false then
    (st, .error (.jsError ("Tool " ++ c.dirName ++ " does not export default")))
  else if c.tool.name = "" ∨ c.hasGetMethods = false then
    (st, .error (.jsError ("Tool " ++ c.dirName ++ " does not implement MCPTool interface")))
  else
    ToolRegistry.register st c.tool

/-- The `Promise.allSettled` phase of `loadAll`, linearised: each candidate
is loaded independently, and the fulfilled/rejected tallies are collected. -/
def loadAllGo (st : RegistryState) : List ToolCandidate → RegistryState × Nat × Nat
  | [] => (st, 0, 0)
  | c :: cs =>
      let r := ToolLoader.loadTool st c
      let rest := loadAllGo r.1 cs
      match r.2 with
      | .ok _ => (rest.1, rest.2.1 + 1, rest.2.2)
      | .error _ => (rest.1, rest.2.1, rest.2.2 + 1)

/-- `loadAll()`: the glob enumeration either fails (caught and logged, no
candidates loaded, treated as zero tools found) or yields the candidate
list, which is loaded with `Promise.allSettled`; the returned pair is the
logged `succeeded`/`failed` count. -/
def ToolLoader.loadAll (st : RegistryState)
    (enumeration : Except Thrown (List ToolCandidate)) :
    RegistryState × Nat × Nat :=
  match enumeration with
  | .error _ => (st, 0, 0)
  | .ok cs => loadAllGo st cs

/-- `reloadTool(toolName)`: unregister first, then load the re-imported
candidate for `{toolsDir}/{toolName}/index.ts`. -/
def ToolLoader.reloadTool (st : RegistryState) (toolName : String)
    (c : ToolCandidate) : RegistryState × Except Thrown Unit :=
  ToolLoader.loadTool (ToolRegistry.unregister st toolName).1 c

/-- Whether `loadTool` on this candidate succeeds (its failure does not
depend on the registry state). -/
def candidateOk (c : ToolCandidate) : Bool :=
  c.hasDefault && !(c.tool.name == "") && c.hasGetMethods &&
    (match c.tool.initializeFn with
     | some (.error _) => false
     | _ => true)

/-! ### Association-map lemmas -/

theorem mapGet_set_self {α : Type} (m : List (String × α)) (k : String) (v : α) :
    mapGet (mapSet m k v) k = some v := by
  induction m with
  | nil => simp [mapSet, mapGet]
  | cons p m ih =>
      by_cases hp : p.1 = k
      · simp [mapSet, hp, mapGet]
      · simp [mapSet, hp, mapGet, ih]

theorem mapGet_set_ne {α : Type} (m : List (String × α)) (k k' : String) (v : α)
    (h : k' ≠ k) : mapGet (mapSet m k v) k' = mapGet m k' := by
  have h' : ¬(k = k') := fun he => h (Eq.symm he)
  induction m with
  | nil => simp [mapSet, mapGet, h']
  | cons p m ih =>
      by_cases hp : p.1 = k
      · subst hp
        have h2 : ¬(p.1 = k') := h'
        simp [mapSet, mapGet, h2]
      · by_cases hp' : p.1 = k'
        · simp [mapSet, hp, mapGet, hp', h]
        · simp [mapSet, hp, mapGet, hp', ih]

theorem mapHas_set {α : Type} (m : List (String × α)) (k n : String) (v : α) :
    mapHas (mapSet m k v) n = (mapHas m n || decide (n = k)) := by
  induction m with
  | nil =>
      by_cases hn : k = n
      · simp [mapSet, mapHas, hn]
      · have hn' : ¬(n = k) := fun he => hn (Eq.symm he)
        simp [mapSet, mapHas, hn, hn']
  | cons p m ih =>
      by_cases hp : p.1 = k
      · subst hp
        by_cases hn : p.1 = n
        · simp [mapSet, mapHas, hn]
        · have hn' : ¬(n = p.1) := fun he => hn (Eq.symm he)
          simp [mapSet, mapHas, hn, hn']
      · by_cases hn : p.1 = n
        · have hnk : ¬(n = k) := fun he => hp (by rw [hn, he])
          simp [mapSet, hp, mapHas, hn, hnk]
        · simp [mapSet, hp, mapHas, hn, ih]

theorem mapHas_iff_mem_keys {α : Type} (m : List (String × α)) (k : String) :
    mapHas m k = true ↔ k ∈ m.map (fun p => p.1) := by
  induction m with
  | nil => simp [mapHas]
  | cons p m ih =>
      by_cases hp : p.1 = k
      · simp [mapHas, hp]
      · have hp' : ¬(k = p.1) := fun he => hp (Eq.symm he)
        rw [List.map_cons, List.mem_cons]
        simp [mapHas, hp, hp', ih]

theorem mapGet_eq_none_of_not_mem_keys {α : Type} (m : List (String × α))
    (k : String) (h : k ∉ m.map (fun p => p.1)) : mapGet m k = none := by
  induction m with
  | nil => simp [mapGet]
  | cons p m ih =>
      rw [List.map_cons, List.mem_cons, not_or] at h
      have h1 : ¬(p.1 = k) := fun he => h.1 (Eq.symm he)
      simp [mapGet, h1, ih h.2]

theorem mapGet_eq_none_of_mapHas_eq_false {α : Type} (m : List (String × α))
    (k : String) (h : mapHas m k = false) : mapGet m k = none := by
  apply mapGet_eq_none_of_not_mem_keys
  intro hmem
  rw [← mapHas_iff_mem_keys] at hmem
  rw [h] at hmem
  exact Bool.false_ne_true hmem

theorem mapGet_delete_self {α : Type} (m : List (String × α)) (k : String)
    (h : UniqKeys m) : mapGet (mapDelete m k) k = none := by
  induction m with
  | nil => simp [mapDelete, mapGet]
  | cons p m ih =>
      rw [UniqKeys, List.map_cons, List.nodup_cons] at h
      by_cases hp : p.1 = k
      · subst hp
        simp [mapDelete, mapGet_eq_none_of_not_mem_keys m p.1 h.1]
      · simp [mapDelete, hp, mapGet, ih h.2]

theorem mem_map_snd_has_key (m : List (String × MCPTool)) (t : MCPTool)
    (hwf : ∀ p ∈ m, p.1 = p.2.name) (ht : t ∈ m.map (fun p => p.2)) :
    mapHas m t.name = true := by
  rw [mapHas_iff_mem_keys]
  rw [List.mem_map] at ht
  obtain ⟨p, hp, hpt⟩ := ht
  rw [List.mem_map]
  exact ⟨p, hp, by rw [hwf p hp, hpt]⟩

/-! ### String-inclusion and classification lemmas -/

theorem infix_of_append_left {α : Type} {l l₁ : List α} (l₂ : List α)
    (h : l <:+: l₁) : l <:+: (l₁ ++ l₂) := by
  obtain ⟨s, t, hst⟩ := h
  exact ⟨s, t ++ l₂, by rw [← hst]; simp⟩

theorem createTimeoutMsg_includes (ms : Nat) :
    includes (createTimeoutMsg ms) "timeout" = true := by
  have h1 : "timeout".data <:+: "Execution timeout after ".data := by decide
  have h2 := infix_of_append_left ((toString ms).data ++ "ms".data) h1
  unfold includes createTimeoutMsg
  rw [decide_eq_true_eq]
  have h3 : ("Execution timeout after " ++ toString ms ++ "ms").data
      = "Execution timeout after ".data ++ ((toString ms).data ++ "ms".data) := by
    show ("Execution timeout after ".data ++ (toString ms).data) ++ "ms".data = _
    rw [List.append_assoc]
  rw [h3]
  exact h2

theorem isCriticalError_timeoutMsg (ms : Nat) :
    isCriticalError (.jsError (createTimeoutMsg ms)) = false := by
  simp [isCriticalError, createTimeoutMsg_includes]

/-! ### Executor unfolding lemmas -/

theorem execute_toolMissing (st : RegistryState) (tn mn : String) (p : JsValue)
    (tmo : Option Nat) (dt : Nat) (hget : ToolRegistry.getTool st tn = none) :
    ToolExecutor.execute st tn mn p tmo dt =
      ⟨⟨false, none, some ("Tool not found: " ++ tn)⟩, st, false, []⟩ := by
  unfold ToolExecutor.execute
  simp only [hget]

theorem execute_methodMissing (st : RegistryState) (tn mn : String) (p : JsValue)
    (tmo : Option Nat) (dt : Nat) (tool : MCPTool)
    (hget : ToolRegistry.getTool st tn = some tool)
    (hfind : tool.methods.find? (fun m => m.name == mn) = none) :
    ToolExecutor.execute st tn mn p tmo dt =
      ⟨⟨false, none, some ("Method not found: " ++ tn ++ "." ++ mn)⟩, st, false, []⟩ := by
  unfold ToolExecutor.execute
  simp only [hget, hfind]

theorem execute_invalidParams (st : RegistryState) (tn mn : String) (p : JsValue)
    (tmo : Option Nat) (dt : Nat) (tool : MCPTool) (method : MCPMethodDefinition)
    (diag : String)
    (hget : ToolRegistry.getTool st tn = some tool)
    (hfind : tool.methods.find? (fun m => m.name == mn) = some method)
    (hval : method.validate p = .error diag) :
    ToolExecutor.execute st tn mn p tmo dt =
      ⟨⟨false, none, some ("Invalid parameters: " ++ diag)⟩, st, false, []⟩ := by
  unfold ToolExecutor.execute
  simp only [hget, hfind, hval]

theorem execute_resolve (st : RegistryState) (tn mn : String) (p : JsValue)
    (tmo : Option Nat) (dt : Nat) (tool : MCPTool) (method : MCPMethodDefinition)
    (parsed : JsValue) (v : JsValue)
    (hget : ToolRegistry.getTool st tn = some tool)
    (hfind : tool.methods.find? (fun m => m.name == mn) = some method)
    (hval : method.validate p = .ok parsed)
    (hres : method.handler parsed = .resolve v) :
    ToolExecutor.execute st tn mn p tmo dt =
      ⟨⟨true, some v, none⟩, st, true, []⟩ := by
  unfold ToolExecutor.execute
  simp only [hget, hfind, hval, hres]

theorem execute_reject (st : RegistryState) (tn mn : String) (p : JsValue)
    (tmo : Option Nat) (dt : Nat) (tool : MCPTool) (method : MCPMethodDefinition)
    (parsed : JsValue) (e : Thrown)
    (hget : ToolRegistry.getTool st tn = some tool)
    (hfind : tool.methods.find? (fun m => m.name == mn) = some method)
    (hval : method.validate p = .ok parsed)
    (hrej : method.handler parsed = .reject e) :
    ToolExecutor.execute st tn mn p tmo dt =
      (if isCriticalError e then
        ⟨⟨false, none, some (thrownText e)⟩,
         ToolRegistry.setHealthStatus st tn false, true, [(tn, false)]⟩
      else ⟨⟨false, none, some (thrownText e)⟩, st, true, []⟩) := by
  unfold ToolExecutor.execute
  simp only [hget, hfind, hval, hrej]

theorem execute_hang (st : RegistryState) (tn mn : String) (p : JsValue)
    (tmo : Option Nat) (dt : Nat) (tool : MCPTool) (method : MCPMethodDefinition)
    (parsed : JsValue)
    (hget : ToolRegistry.getTool st tn = some tool)
    (hfind : tool.methods.find? (fun m => m.name == mn) = some method)
    (hval : method.validate p = .ok parsed)
    (hhang : method.handler parsed = .hang) :
    ToolExecutor.execute st tn mn p tmo dt =
      ⟨⟨false, none, some (createTimeoutMsg (tmo.getD dt))⟩, st, true, []⟩ := by
  unfold ToolExecutor.execute
  simp only [hget, hfind, hval, hhang, isCriticalError_timeoutMsg, Bool.false_eq_true,
    if_false, thrownText]

/-! ### Loader lemmas -/

theorem loadTool_cases (st : RegistryState) (c : ToolCandidate) :
    (candidateOk c = true ∧ ToolLoader.loadTool st c
        = ({ tools := mapSet st.tools c.tool.name c.tool,
             health := mapSet st.health c.tool.name true }, .ok ()))
    ∨ (candidateOk c = false ∧ (ToolLoader.loadTool st c).1.tools = st.tools
        ∧ ∃ e, (ToolLoader.loadTool st c).2 = .error e) := by
  by_cases hd : c.hasDefault = true
  · by_cases hnm : c.tool.name = ""
    · right
      refine ⟨?_, ?_, ?_⟩ <;>
        simp [candidateOk, ToolLoader.loadTool, hd, hnm]
    · by_cases hgm : c.hasGetMethods = true
      · cases hin : c.tool.initializeFn with
        | none =>
            left
            constructor
            · simp [candidateOk, hd, hnm, hgm, hin]
            · simp [ToolLoader.loadTool, hd, hnm, hgm, ToolRegistry.register, hin]
        | some r =>
            cases r with
            | ok u =>
                left
                constructor
                · simp [candidateOk, hd, hnm, hgm, hin]
                · simp [ToolLoader.loadTool, hd, hnm, hgm, ToolRegistry.register, hin]
            | error e =>
                right
                refine ⟨?_, ?_, e, ?_⟩ <;>
                  simp [candidateOk, ToolLoader.loadTool, hd, hnm, hgm,
                    ToolRegistry.register, hin]
      · right
        have hgm' : c.hasGetMethods = false := by
          revert hgm; cases c.hasGetMethods <;> simp
        refine ⟨?_, ?_, ?_⟩ <;>
          simp [candidateOk, ToolLoader.loadTool, hd, hnm, hgm']
  · right
    have hd' : c.hasDefault = false := by
      revert hd; cases c.hasDefault <;> simp
    refine ⟨?_, ?_, ?_⟩ <;>
      simp [candidateOk, ToolLoader.loadTool, hd']

theorem mapHas_loadTool_mono (st : RegistryState) (c : ToolCandidate) (n : String)
    (h : mapHas st.tools n = true) :
    mapHas (ToolLoader.loadTool st c).1.tools n = true := by
  rcases loadTool_cases st c with ⟨-, heq⟩ | ⟨-, heq, -⟩
  · rw [heq]
    simp [mapHas_set, h]
  · rw [heq]
    exact h

theorem loadAllGo_cons_fst (st : RegistryState) (c : ToolCandidate)
    (cs : List ToolCandidate) :
    (loadAllGo st (c :: cs)).1 = (loadAllGo (ToolLoader.loadTool st c).1 cs).1 := by
  simp only [loadAllGo]
  cases (ToolLoader.loadTool st c).2 <;> simp

theorem loadAllGo_counts (cs : List ToolCandidate) (st : RegistryState) :
    (loadAllGo st cs).2.1 = cs.countP candidateOk
    ∧ (loadAllGo st cs).2.2 = cs.countP (fun c => !candidateOk c) := by
  induction cs generalizing st with
  | nil => simp [loadAllGo]
  | cons c cs ih =>
      simp only [loadAllGo, List.countP_cons]
      rcases loadTool_cases st c with ⟨hok, heq⟩ | ⟨hbad, -, e, herr⟩
      · rw [heq]
        simp [hok, (ih _).1, (ih _).2]
      · rw [herr]
        simp [hbad, (ih _).1, (ih _).2]

theorem mapHas_loadAllGo_mono (cs : List ToolCandidate) (st : RegistryState)
    (n : String) (h : mapHas st.tools n = true) :
    mapHas (loadAllGo st cs).1.tools n = true := by
  induction cs generalizing st with
  | nil => simpa [loadAllGo] using h
  | cons c cs ih =>
      rw [loadAllGo_cons_fst]
      exact ih _ (mapHas_loadTool_mono st c n h)

theorem loadAllGo_registers (cs : List ToolCandidate) (st : RegistryState)
    (c : ToolCandidate) (hc : c ∈ cs) (hok : candidateOk c = true) :
    mapHas (loadAllGo st cs).1.tools c.tool.name = true := by
  induction cs generalizing st with
  | nil => cases hc
  | cons c0 cs ih =>
      rw [loadAllGo_cons_fst]
      rcases List.mem_cons.mp hc with rfl | hmem
      · apply mapHas_loadAllGo_mono
        rcases loadTool_cases st c with ⟨-, heq⟩ | ⟨hbad, -, -⟩
        · rw [heq]
          simp [mapHas_set]
        · rw [hok] at hbad
          cases hbad
      · exact ih _ hmem

theorem countP_ok_add_not (cs : List ToolCandidate) :
    cs.countP candidateOk + cs.countP (fun c => !candidateOk c) = cs.length := by
  induction cs with
  | nil => simp
  | cons c cs ih =>
      simp only [List.countP_cons]
      cases hc : candidateOk c <;> simp [hc] <;> omega

/-! ### Concrete tools and registry states for witnesses -/

/-- A schema that accepts any params unchanged. -/
def okValidate : JsValue → Except String JsValue := fun p => .ok p

def demoMethod : MCPMethodDefinition :=
  { name := "add", description := "adds two numbers", validate := okValidate,
    handler := fun _ => .resolve (.number 4) }

def demoTool : MCPTool :=
  { name := "calc", description := "calculator", version := "1.0.0",
    methods := [demoMethod], initializeFn := none, healthCheck := none }

def demoState : RegistryState :=
  { tools := [("calc", demoTool)], health := [("calc", true)] }

def emptyState : RegistryState := { tools := [], health := [] }

def hangMethod : MCPMethodDefinition :=
  { name := "sleep", description := "never settles", validate := okValidate,
    handler := fun _ => .hang }

def hangTool : MCPTool :=
  { name := "sleepy", description := "", version := "1.0.0",
    methods := [hangMethod], initializeFn := none, healthCheck := none }

def hangState : RegistryState :=
  { tools := [("sleepy", hangTool)], health := [("sleepy", true)] }

/-- A handler that throws a non-`Error` value whose text is a connectivity marker. -/
def connRejectMethod : MCPMethodDefinition :=
  { name := "fetch", description := "", validate := okValidate,
    handler := fun _ => .reject (.nonError "ECONNREFUSED") }

def netTool : MCPTool :=
  { name := "net", description := "", version := "1.0.0",
    methods := [connRejectMethod], initializeFn := none, healthCheck := none }

def netState : RegistryState :=
  { tools := [("net", netTool)], health := [("net", true)] }

/-- A handler that rejects with an `Error` whose message is a connectivity marker. -/
def connErrMethod : MCPMethodDefinition :=
  { name := "fetch", description := "", validate := okValidate,
    handler := fun _ => .reject (.jsError "ECONNREFUSED") }

def netErrTool : MCPTool :=
  { name := "neterr", description := "", version := "1.0.0",
    methods := [connErrMethod], initializeFn := none, healthCheck := none }

def netErrState : RegistryState :=
  { tools := [("neterr", netErrTool)], health := [("neterr", true)] }

/-- A method whose schema rejects every input. -/
def strictMethod : MCPMethodDefinition :=
  { name := "add", description := "", validate := fun _ => .error "Required",
    handler := fun _ => .resolve .null }

def strictTool : MCPTool :=
  { name := "strict", description := "", version := "1.0.0",
    methods := [strictMethod], initializeFn := none, healthCheck := none }

def strictState : RegistryState :=
  { tools := [("strict", strictTool)], health := [("strict", true)] }

/-- A tool whose initialize capability rejects. -/
def badInitTool : MCPTool :=
  { name := "flaky", description := "", version := "1.0.0",
    methods := [demoMethod], initializeFn := some (.error (.jsError "boom")),
    healthCheck := none }

def goodCand : ToolCandidate :=
  { dirName := "calc", hasDefault := true, hasGetMethods := true, tool := demoTool }

def badCand : ToolCandidate :=
  { dirName := "broken", hasDefault := false, hasGetMethods := true, tool := demoTool }

theorem demoState_wf : demoState.WF := by
  unfold RegistryState.WF
  refine ⟨?_, ?_, ?_⟩
  · simp [demoState, UniqKeys]
  · simp [demoState, UniqKeys]
  · intro p hp
    simp only [demoState, List.mem_singleton] at hp
    subst hp
    rfl

/-! ### Claims -/

/-- C3: for every `toolName`, `methodName`, `params` and `timeout`,
`execute` returns a tagged Execution-result value of shape
`{success: true, data}` or `{success: false, error: string}` and never
raises past the Executor boundary (`ToolExecutor.execute` is a total
function into `ExecOut`), for all failure causes: tool not found, method
not found, validation failure, timeout, and any handler raise/reject. -/
theorem execute_result_shape (st : RegistryState) (tn mn : String) (p : JsValue)
    (tmo : Option Nat) (dt : Nat) :
    ((ToolExecutor.execute st tn mn p tmo dt).result.success = true
      ∧ (∃ v, (ToolExecutor.execute st tn mn p tmo dt).result.data = some v)
      ∧ (ToolExecutor.execute st tn mn p tmo dt).result.error = none)
    ∨ ((ToolExecutor.execute st tn mn p tmo dt).result.success = false
      ∧ (ToolExecutor.execute st tn mn p tmo dt).result.data = none
      ∧ ∃ msg, (ToolExecutor.execute st tn mn p tmo dt).result.error = some msg) := by
  cases hget : ToolRegistry.getTool st tn with
  | none =>
      right
      rw [execute_toolMissing st tn mn p tmo dt hget]
      exact ⟨rfl, rfl, _, rfl⟩
  | some tool =>
      cases hfind : tool.methods.find? (fun m => m.name == mn) with
      | none =>
          right
          rw [execute_methodMissing st tn mn p tmo dt tool hget hfind]
          exact ⟨rfl, rfl, _, rfl⟩
      | some method =>
          cases hval : method.validate p with
          | error diag =>
              right
              rw [execute_invalidParams st tn mn p tmo dt tool method diag hget hfind hval]
              exact ⟨rfl, rfl, _, rfl⟩
          | ok parsed =>
              cases hh : method.handler parsed with
              | resolve v =>
                  left
                  rw [execute_resolve st tn mn p tmo dt tool method parsed v hget hfind hval hh]
                  exact ⟨rfl, ⟨v, rfl⟩, rfl⟩
              | reject e =>
                  right
                  rw [execute_reject st tn mn p tmo dt tool method parsed e hget hfind hval hh]
                  by_cases hcrit : isCriticalError e = true
                  · rw [if_pos hcrit]
                    exact ⟨rfl, rfl, _, rfl⟩
                  · rw [if_neg hcrit]
                    exact ⟨rfl, rfl, _, rfl⟩
              | hang =>
                  right
                  rw [execute_hang st tn mn p tmo dt tool method parsed hget hfind hval hh]
                  exact ⟨rfl, rfl, _, rfl⟩

/-- C4: a registered handler that does not settle within the supplied
timeout bound yields `{success: false}` with an error text containing
`"timeout"`, and the tool's health flag is the same after the call as it
was before; the executor issues no `setHealthStatus` call. -/
theorem execute_timeout_frame (st : RegistryState) (tn mn : String) (p : JsValue)
    (tmo : Option Nat) (dt : Nat) (tool : MCPTool) (method : MCPMethodDefinition)
    (parsed : JsValue)
    (hget : ToolRegistry.getTool st tn = some tool)
    (hfind : tool.methods.find? (fun m => m.name == mn) = some method)
    (hval : method.validate p = .ok parsed)
    (hhang : method.handler parsed = .hang) :
    (ToolExecutor.execute st tn mn p tmo dt).result.success = false
    ∧ (∃ msg, (ToolExecutor.execute st tn mn p tmo dt).result.error = some msg
        ∧ includes msg "timeout" = true)
    ∧ mapGet (ToolExecutor.execute st tn mn p tmo dt).reg.health tn = mapGet st.health tn
    ∧ (ToolExecutor.execute st tn mn p tmo dt).setHealthCalls = [] := by
  rw [execute_hang st tn mn p tmo dt tool method parsed hget hfind hval hhang]
  exact ⟨rfl, ⟨createTimeoutMsg (tmo.getD dt), rfl, createTimeoutMsg_includes _⟩, rfl, rfl⟩

theorem execute_timeout_frame_witness :
    (ToolRegistry.getTool hangState "sleepy" = some hangTool
      ∧ hangTool.methods.find? (fun m => m.name == "sleep") = some hangMethod
      ∧ hangMethod.validate .null = .ok .null
      ∧ hangMethod.handler .null = .hang)
    ∧ ((ToolExecutor.execute hangState "sleepy" "sleep" .null none 30000).result.success = false
      ∧ (∃ msg, (ToolExecutor.execute hangState "sleepy" "sleep" .null none 30000).result.error = some msg
          ∧ includes msg "timeout" = true)
      ∧ mapGet (ToolExecutor.execute hangState "sleepy" "sleep" .null none 30000).reg.health "sleepy"
          = mapGet hangState.health "sleepy"
      ∧ (ToolExecutor.execute hangState "sleepy" "sleep" .null none 30000).setHealthCalls = []) :=
  ⟨⟨rfl, rfl, rfl, rfl⟩,
   execute_timeout_frame hangState "sleepy" "sleep" .null none 30000 hangTool hangMethod .null
     rfl rfl rfl rfl⟩

/-- C7: when the supplied params fail the method's input schema, `execute`
returns `{success: false}` with an error string `"Invalid parameters: "`
followed by the validation diagnostic, and the method handler is not
invoked; the registry is untouched. -/
theorem execute_validation_blocks (st : RegistryState) (tn mn : String) (p : JsValue)
    (tmo : Option Nat) (dt : Nat) (tool : MCPTool) (method : MCPMethodDefinition)
    (diag : String)
    (hget : ToolRegistry.getTool st tn = some tool)
    (hfind : tool.methods.find? (fun m => m.name == mn) = some method)
    (hval : method.validate p = .error diag) :
    (ToolExecutor.execute st tn mn p tmo dt).result
        = ⟨false, none, some ("Invalid parameters: " ++ diag)⟩
    ∧ (ToolExecutor.execute st tn mn p tmo dt).handlerInvoked = false
    ∧ (ToolExecutor.execute st tn mn p tmo dt).reg = st := by
  rw [execute_invalidParams st tn mn p tmo dt tool method diag hget hfind hval]
  exact ⟨rfl, rfl, rfl⟩

theorem execute_validation_blocks_witness :
    (ToolRegistry.getTool strictState "strict" = some strictTool
      ∧ strictTool.methods.find? (fun m => m.name == "add") = some strictMethod
      ∧ strictMethod.validate (.object [("a", .number 2)]) = .error "Required")
    ∧ ((ToolExecutor.execute strictState "strict" "add" (.object [("a", .number 2)]) none 30000).result
        = ⟨false, none, some ("Invalid parameters: " ++ "Required")⟩
      ∧ (ToolExecutor.execute strictState "strict" "add" (.object [("a", .number 2)]) none 30000).handlerInvoked = false
      ∧ (ToolExecutor.execute strictState "strict" "add" (.object [("a", .number 2)]) none 30000).reg = strictState) :=
  ⟨⟨rfl, rfl, rfl⟩,
   execute_validation_blocks strictState "strict" "add" (.object [("a", .number 2)]) none 30000
     strictTool strictMethod "Required" rfl rfl rfl⟩

/-- C1 counterexample: a handler that throws the non-`Error` value
`"ECONNREFUSED"` produces a failure whose text contains the
connectivity-failure marker, yet the Executor issues no
`setHealthStatus` call and the tool's health flag stays `true` —
refuting the claim that classification by textual description extends to
non-`Error` thrown values. -/
theorem execute_nonError_conn_counterexample :
    (ToolExecutor.execute netState "net" "fetch" .null none 30000).result.error
        = some "ECONNREFUSED"
    ∧ includes "ECONNREFUSED" "ECONNREFUSED" = true
    ∧ (ToolExecutor.execute netState "net" "fetch" .null none 30000).setHealthCalls = []
    ∧ mapGet (ToolExecutor.execute netState "net" "fetch" .null none 30000).reg.health "net"
        = some true :=
  ⟨rfl, by decide, rfl, rfl⟩

/-- C1 (amended): when the resolved handler rejects, the failure is
classified by text only for `Error` instances: an `Error` message
containing `"timeout"` is not critical and health is untouched; an `Error`
message without `"timeout"` but containing `"ECONNREFUSED"` or
`"ENOTFOUND"` is critical and `Registry.setHealthStatus(toolName, false)`
is invoked; any other `Error` message, and every non-`Error` thrown value
(even one whose text contains a connectivity marker), leaves health
untouched. -/
theorem execute_classification_amended (st : RegistryState) (tn mn : String)
    (p : JsValue) (tmo : Option Nat) (dt : Nat) (tool : MCPTool)
    (method : MCPMethodDefinition) (parsed : JsValue) (e : Thrown)
    (hget : ToolRegistry.getTool st tn = some tool)
    (hfind : tool.methods.find? (fun m => m.name == mn) = some method)
    (hval : method.validate p = .ok parsed)
    (hrej : method.handler parsed = .reject e) :
    (∀ m, e = .jsError m → includes m "timeout" = true →
        (ToolExecutor.execute st tn mn p tmo dt).reg = st
        ∧ (ToolExecutor.execute st tn mn p tmo dt).setHealthCalls = [])
    ∧ (∀ m, e = .jsError m → includes m "timeout" = false →
        (includes m "ECONNREFUSED" || includes m "ENOTFOUND") = true →
        (ToolExecutor.execute st tn mn p tmo dt).reg
            = ToolRegistry.setHealthStatus st tn false
        ∧ (ToolExecutor.execute st tn mn p tmo dt).setHealthCalls = [(tn, false)])
    ∧ (∀ m, e = .jsError m → includes m "timeout" = false →
        (includes m "ECONNREFUSED" || includes m "ENOTFOUND") = false →
        (ToolExecutor.execute st tn mn p tmo dt).reg = st
        ∧ (ToolExecutor.execute st tn mn p tmo dt).setHealthCalls = [])
    ∧ (∀ t, e = .nonError t →
        (ToolExecutor.execute st tn mn p tmo dt).reg = st
        ∧ (ToolExecutor.execute st tn mn p tmo dt).setHealthCalls = []) := by
  rw [execute_reject st tn mn p tmo dt tool method parsed e hget hfind hval hrej]
  refine ⟨?_, ?_, ?_, ?_⟩
  · intro m hm h1
    subst hm
    have hcrit : isCriticalError (.jsError m) = false := by
      simp [isCriticalError, h1]
    simp [hcrit]
  · intro m hm h1 h2
    subst hm
    have hcrit : isCriticalError (.jsError m) = true := by
      simp only [isCriticalError, h1, h2]
      simp
    simp [hcrit]
  · intro m hm h1 h2
    subst hm
    have hcrit : isCriticalError (.jsError m) = false := by
      simp only [isCriticalError, h1, h2]
      simp
    simp [hcrit]
  · intro t ht
    subst ht
    simp [isCriticalError]

theorem execute_classification_amended_witness :
    (ToolRegistry.getTool netErrState "neterr" = some netErrTool
      ∧ netErrTool.methods.find? (fun m => m.name == "fetch") = some connErrMethod
      ∧ connErrMethod.validate .null = .ok .null
      ∧ connErrMethod.handler .null = .reject (.jsError "ECONNREFUSED")
      ∧ includes "ECONNREFUSED" "timeout" = false
      ∧ (includes "ECONNREFUSED" "ECONNREFUSED" || includes "ECONNREFUSED" "ENOTFOUND") = true)
    ∧ ((ToolExecutor.execute netErrState "neterr" "fetch" .null none 30000).reg
          = ToolRegistry.setHealthStatus netErrState "neterr" false
      ∧ (ToolExecutor.execute netErrState "neterr" "fetch" .null none 30000).setHealthCalls
          = [("neterr", false)]) :=
  ⟨⟨rfl, rfl, rfl, rfl, by decide, by decide⟩,
   (execute_classification_amended netErrState "neterr" "fetch" .null none 30000
       netErrTool connErrMethod .null (.jsError "ECONNREFUSED")
       rfl rfl rfl rfl).2.1 "ECONNREFUSED" rfl (by decide) (by decide)⟩

/-- C2: when `register(tool)`'s initialize capability fails, the Registry
records health `false` for `tool.name` and re-raises the failure; the
descriptor map is left untouched, so a fresh registration leaves no
descriptor entry for `tool.name`, while a replacement leaves the
previously-installed descriptor in place under that name. -/
theorem register_initFailure (st : RegistryState) (tool : MCPTool) (e : Thrown)
    (hinit : tool.initializeFn = some (.error e)) :
    (ToolRegistry.register st tool).2 = .error e
    ∧ (ToolRegistry.register st tool).1.tools = st.tools
    ∧ mapGet (ToolRegistry.register st tool).1.health tool.name = some false
    ∧ (mapHas st.tools tool.name = false →
        mapGet (ToolRegistry.register st tool).1.tools tool.name = none)
    ∧ (∀ old, mapGet st.tools tool.name = some old →
        mapGet (ToolRegistry.register st tool).1.tools tool.name = some old) := by
  have hreg : ToolRegistry.register st tool
      = ({ st with health := mapSet st.health tool.name false }, .error e) := by
    unfold ToolRegistry.register
    simp only [hinit]
  rw [hreg]
  refine ⟨rfl, rfl, mapGet_set_self _ _ _, ?_, ?_⟩
  · intro hfresh
    exact mapGet_eq_none_of_mapHas_eq_false _ _ hfresh
  · intro old hold
    exact hold

theorem register_initFailure_witness :
    (badInitTool.initializeFn = some (.error (.jsError "boom")))
    ∧ ((ToolRegistry.register emptyState badInitTool).2 = .error (.jsError "boom")
      ∧ (ToolRegistry.register emptyState badInitTool).1.tools = emptyState.tools
      ∧ mapGet (ToolRegistry.register emptyState badInitTool).1.health badInitTool.name = some false
      ∧ (mapHas emptyState.tools badInitTool.name = false →
          mapGet (ToolRegistry.register emptyState badInitTool).1.tools badInitTool.name = none)
      ∧ (∀ old, mapGet emptyState.tools badInitTool.name = some old →
          mapGet (ToolRegistry.register emptyState badInitTool).1.tools badInitTool.name = some old)) :=
  ⟨rfl, register_initFailure emptyState badInitTool (.jsError "boom") rfl⟩

/-- C5: `getHealthyTools()` returns exactly the registered tool descriptors
whose health flag is exactly `true`; in particular, a tool whose fresh
registration failed because its initialize threw is not in this set. -/
theorem getHealthyTools_exact (st : RegistryState) (h : st.WF) :
    (∀ t, t ∈ ToolRegistry.getHealthyTools st ↔
        (t ∈ ToolRegistry.getAllTools st ∧ mapGet st.health t.name = some true))
    ∧ (∀ tool e, tool.initializeFn = some (.error e) →
        mapHas st.tools tool.name = false →
        tool ∉ ToolRegistry.getHealthyTools (ToolRegistry.register st tool).1) := by
  constructor
  · intro t
    unfold ToolRegistry.getHealthyTools
    rw [List.mem_filter]
    simp
  · intro tool e hinit hfresh hmem
    have hreg1 : (ToolRegistry.register st tool).1
        = { st with health := mapSet st.health tool.name false } := by
      unfold ToolRegistry.register
      simp only [hinit]
    rw [hreg1] at hmem
    have hmem' : tool ∈ st.tools.map (fun p => p.2) :=
      List.mem_of_mem_filter hmem
    have hhas : mapHas st.tools tool.name = true :=
      mem_map_snd_has_key st.tools tool h.2.2 hmem'
    rw [hfresh] at hhas
    cases hhas

theorem getHealthyTools_exact_witness :
    demoState.WF
    ∧ (demoTool ∈ ToolRegistry.getHealthyTools demoState ↔
        (demoTool ∈ ToolRegistry.getAllTools demoState
          ∧ mapGet demoState.health demoTool.name = some true))
    ∧ badInitTool ∉ ToolRegistry.getHealthyTools
        (ToolRegistry.register demoState badInitTool).1 :=
  ⟨demoState_wf,
   (getHealthyTools_exact demoState demoState_wf).1 demoTool,
   (getHealthyTools_exact demoState demoState_wf).2 badInitTool (.jsError "boom") rfl rfl⟩

/-- C8: `unregister(n)` removes both the descriptor mapping and the health
flag for `n` and returns `true` exactly when a descriptor entry existed;
afterwards `getTool(n)` and `getToolStatus(n)` both report `n` as absent. -/
theorem unregister_removes (st : RegistryState) (h : st.WF) (n : String) :
    (ToolRegistry.unregister st n).2 = mapHas st.tools n
    ∧ ToolRegistry.getTool (ToolRegistry.unregister st n).1 n = none
    ∧ mapGet (ToolRegistry.unregister st n).1.health n = none
    ∧ ToolRegistry.getToolStatus (ToolRegistry.unregister st n).1 n = none := by
  have htools : mapGet (ToolRegistry.unregister st n).1.tools n = none :=
    mapGet_delete_self st.tools n h.1
  refine ⟨rfl, htools, mapGet_delete_self st.health n h.2.1, ?_⟩
  unfold ToolRegistry.getToolStatus
  simp only [htools]

theorem unregister_removes_witness :
    demoState.WF
    ∧ ((ToolRegistry.unregister demoState "calc").2 = mapHas demoState.tools "calc"
      ∧ ToolRegistry.getTool (ToolRegistry.unregister demoState "calc").1 "calc" = none
      ∧ mapGet (ToolRegistry.unregister demoState "calc").1.health "calc" = none
      ∧ ToolRegistry.getToolStatus (ToolRegistry.unregister demoState "calc").1 "calc" = none) :=
  ⟨demoState_wf, unregister_removes demoState demoState_wf "calc"⟩

/-- C9: after a failed fresh registration (initialize threw, no prior
descriptor), the internal health map retains a `false` entry for the name
even though no descriptor exists, yet every public read — `getTool`,
`getToolStatus`, `getAllToolStatus`, `getHealthyTools` — treats the name
as absent, because reads are keyed off the descriptor map. -/
theorem register_fail_fresh_unobservable (st : RegistryState) (h : st.WF)
    (tool : MCPTool) (e : Thrown)
    (hinit : tool.initializeFn = some (.error e))
    (hfresh : mapHas st.tools tool.name = false) :
    mapGet (ToolRegistry.register st tool).1.health tool.name = some false
    ∧ ToolRegistry.getTool (ToolRegistry.register st tool).1 tool.name = none
    ∧ ToolRegistry.getToolStatus (ToolRegistry.register st tool).1 tool.name = none
    ∧ (∀ ts ∈ ToolRegistry.getAllToolStatus (ToolRegistry.register st tool).1,
        ts.name ≠ tool.name)
    ∧ (∀ t ∈ ToolRegistry.getHealthyTools (ToolRegistry.register st tool).1,
        t.name ≠ tool.name) := by
  have hreg1 : (ToolRegistry.register st tool).1
      = { st with health := mapSet st.health tool.name false } := by
    unfold ToolRegistry.register
    simp only [hinit]
  have hget : mapGet st.tools tool.name = none :=
    mapGet_eq_none_of_mapHas_eq_false _ _ hfresh
  rw [hreg1]
  refine ⟨mapGet_set_self _ _ _, hget, ?_, ?_, ?_⟩
  · unfold ToolRegistry.getToolStatus
    simp only [hget]
  · intro ts hts hname
    unfold ToolRegistry.getAllToolStatus ToolRegistry.getAllTools at hts
    simp only [List.map_map, List.mem_map] at hts
    obtain ⟨p, hp, hpts⟩ := hts
    have hkey : p.1 = p.2.name := h.2.2 p hp
    have : mapHas st.tools tool.name = true := by
      rw [mapHas_iff_mem_keys]
      rw [List.mem_map]
      refine ⟨p, hp, ?_⟩
      rw [hkey]
      rw [← hpts] at hname
      exact hname
    rw [hfresh] at this
    cases this
  · intro t ht hname
    have ht' : t ∈ st.tools.map (fun p => p.2) :=
      List.mem_of_mem_filter ht
    have : mapHas st.tools tool.name = true := by
      rw [← hname]
      exact mem_map_snd_has_key st.tools t h.2.2 ht'
    rw [hfresh] at this
    cases this

theorem register_fail_fresh_unobservable_witness :
    (demoState.WF
      ∧ badInitTool.initializeFn = some (.error (.jsError "boom"))
      ∧ mapHas demoState.tools badInitTool.name = false)
    ∧ (mapGet (ToolRegistry.register demoState badInitTool).1.health badInitTool.name = some false
      ∧ ToolRegistry.getTool (ToolRegistry.register demoState badInitTool).1 badInitTool.name = none
      ∧ ToolRegistry.getToolStatus (ToolRegistry.register demoState badInitTool).1 badInitTool.name = none
      ∧ (∀ ts ∈ ToolRegistry.getAllToolStatus (ToolRegistry.register demoState badInitTool).1,
          ts.name ≠ badInitTool.name)
      ∧ (∀ t ∈ ToolRegistry.getHealthyTools (ToolRegistry.register demoState badInitTool).1,
          t.name ≠ badInitTool.name)) :=
  ⟨⟨demoState_wf, rfl, rfl⟩,
   register_fail_fresh_unobservable demoState demoState_wf badInitTool (.jsError "boom") rfl rfl⟩

/-- C10: `reloadTool(name)` unregisters the existing entry before
re-loading; if the re-load (or re-registration) fails, the error
propagates and `name` is left with no registered descriptor — the prior
descriptor is not restored. -/
theorem reload_not_atomic (st : RegistryState) (h : st.WF) (n : String)
    (c : ToolCandidate) (e : Thrown)
    (hfail : (ToolLoader.reloadTool st n c).2 = .error e) :
    ToolLoader.reloadTool st n c
        = ToolLoader.loadTool (ToolRegistry.unregister st n).1 c
    ∧ ToolRegistry.getTool (ToolLoader.reloadTool st n c).1 n = none := by
  refine ⟨rfl, ?_⟩
  rcases loadTool_cases (ToolRegistry.unregister st n).1 c with ⟨-, heq⟩ | ⟨-, htools, -⟩
  · unfold ToolLoader.reloadTool at hfail
    rw [heq] at hfail
    simp at hfail
  · show ToolRegistry.getTool (ToolLoader.loadTool (ToolRegistry.unregister st n).1 c).1 n = none
    unfold ToolRegistry.getTool
    rw [htools]
    exact mapGet_delete_self st.tools n h.1

theorem reload_not_atomic_witness :
    (demoState.WF
      ∧ (ToolLoader.reloadTool demoState "calc" badCand).2
          = .error (.jsError ("Tool " ++ "broken" ++ " does not export default")))
    ∧ (ToolLoader.reloadTool demoState "calc" badCand
        = ToolLoader.loadTool (ToolRegistry.unregister demoState "calc").1 badCand
      ∧ ToolRegistry.getTool (ToolLoader.reloadTool demoState "calc" badCand).1 "calc" = none) :=
  ⟨⟨demoState_wf, rfl⟩,
   reload_not_atomic demoState demoState_wf "calc" badCand
     (.jsError ("Tool " ++ "broken" ++ " does not export default")) rfl⟩

/-- C6: `loadAll` loads every candidate independently — with exactly one
failing candidate among `N`, the logged counts are `N-1` succeeded and `1`
failed and every succeeding candidate's tool is registered — and `loadAll`
itself never raises: a total enumeration failure is treated as zero tools
found, leaving the registry untouched. -/
theorem loadAll_isolation (st : RegistryState) (cs : List ToolCandidate) (e : Thrown)
    (hone : cs.countP (fun c => !candidateOk c) = 1) :
    (ToolLoader.loadAll st (.ok cs)).2.1 = cs.length - 1
    ∧ (ToolLoader.loadAll st (.ok cs)).2.2 = 1
    ∧ (∀ c ∈ cs, candidateOk c = true →
        mapHas (ToolLoader.loadAll st (.ok cs)).1.tools c.tool.name = true)
    ∧ ToolLoader.loadAll st (.error e) = (st, 0, 0) := by
  have hgo := loadAllGo_counts cs st
  have hsum := countP_ok_add_not cs
  refine ⟨?_, ?_, ?_, rfl⟩
  · show (loadAllGo st cs).2.1 = cs.length - 1
    rw [hgo.1]
    omega
  · show (loadAllGo st cs).2.2 = 1
    rw [hgo.2, hone]
  · intro c hc hok
    show mapHas (loadAllGo st cs).1.tools c.tool.name = true
    exact loadAllGo_registers cs st c hc hok

theorem loadAll_isolation_witness :
    ((([goodCand, badCand] : List ToolCandidate).countP (fun c => !candidateOk c) = 1)
      ∧ goodCand ∈ ([goodCand, badCand] : List ToolCandidate)
      ∧ candidateOk goodCand = true)
    ∧ ((ToolLoader.loadAll emptyState (.ok [goodCand, badCand])).2.1
          = ([goodCand, badCand] : List ToolCandidate).length - 1
      ∧ (ToolLoader.loadAll emptyState (.ok [goodCand, badCand])).2.2 = 1
      ∧ (∀ c ∈ ([goodCand, badCand] : List ToolCandidate), candidateOk c = true →
          mapHas (ToolLoader.loadAll emptyState (.ok [goodCand, badCand])).1.tools c.tool.name = true)
      ∧ ToolLoader.loadAll emptyState (.error (.jsError "ENOENT")) = (emptyState, 0, 0)) :=
  ⟨⟨rfl, by simp, rfl⟩,
   loadAll_isolation emptyState [goodCand, badCand] (.jsError "ENOENT") rfl⟩
